import Mathlib

/-!
Verification of the retrieval engine in
`backend/src/engine/SultanAnalysisEngine.ts`.

The TypeScript module is shallowly embedded:
JavaScript numbers are idealized as elements of a linear ordered field `K`
(instantiated at `ℝ` for the similarity lemmas and at `ℚ` for executable
witnesses), `Math.sqrt` is a parameter `sq : K → K` (instantiated with
`Real.sqrt` over `ℝ`), the remote embedding provider reached through `fetch`
is a function from the request input text to an HTTP response, and the
mutable module state (the embedding cache plus a log of the provider
requests actually issued) is passed explicitly.
-/

namespace Sultan

/-- The `Verse` record, from the `Verse` interface of the source.
`ayahNumber` stores the 1-based position (the 0-based index in the group
plus one), exactly as the source assigns `idx + 1`. -/
structure Verse where
  ayahId : String
  surahNumber : Nat
  surahName : String
  ayahNumber : Nat
  text : String
deriving DecidableEq

/-- The `SearchResult` record, from the `SearchResult` interface of the source. -/
structure SearchResult (K : Type) where
  verse : Verse
  score : K
deriving DecidableEq

/-- One group of the source dataset (`QURANIC_DATA.surahs` entry): a number,
a name and an optional list of text lines.  The corpus uses the group
numbers 1..114, so they are modelled as naturals. -/
structure Surah where
  number : Nat
  name : String
  content : Option (List String)
deriving DecidableEq

/-- JavaScript `String.prototype.trim`: drop whitespace from both ends. -/
def jsTrim (s : String) : String :=
  ⟨((s.data.dropWhile Char.isWhitespace).reverse.dropWhile Char.isWhitespace).reverse⟩

/-- JavaScript `text.slice(0, n)`: the first `n` characters (no padding). -/
def jsSlice (s : String) (n : Nat) : String :=
  ⟨s.data.take n⟩

/-- JavaScript `String.prototype.toLowerCase` (ASCII lowering). -/
def jsToLowerCase (s : String) : String :=
  ⟨s.data.map Char.toLower⟩

/-- JavaScript `String.prototype.includes`: substring containment. -/
def includes (s sub : String) : Bool :=
  decide (sub.data <:+: s.data)

/-- The verses contributed by one group: the source loop reads
`(surah.content ?? [])` and pushes, for each `(text, idx)`, the record with
id `` `${surah.number}:${idx + 1}` ``. -/
def surahVerses (s : Surah) : List Verse :=
  (s.content.getD []).enum.map fun p =>
    { ayahId := Nat.repr s.number ++ ":" ++ Nat.repr (p.1 + 1)
      surahNumber := s.number
      surahName := s.name
      ayahNumber := p.1 + 1
      text := p.2 }

/-- The corpus index: the source `for`-loop over `QURANIC_DATA.surahs`
flattened in group order, then line order. -/
def buildVerses (surahs : List Surah) : List Verse :=
  surahs.flatMap surahVerses

/-- The response of one provider request, as the source consumes it:
`res.ok`, `res.status`, the body text, and the parsed `embeddings` field
(absent on malformed bodies). -/
structure ProviderResponse (K : Type) where
  ok : Bool
  status : Nat
  body : String
  embeddings : Option (List (List K))

/-- The embedding provider: a deterministic map from the request input text
to an HTTP response (the model of `fetch` on `{OLLAMA_URL}/api/embed`). -/
def Provider (K : Type) : Type := String → ProviderResponse K

/-- The two failure kinds of the semantic path (§ error taxonomy):
a non-success HTTP status, or a success body with no usable vector. -/
inductive EmbedError where
  | providerError (status : Nat) (body : String)
  | missingEmbedding
deriving DecidableEq

/-- The mutable module state: the `embeddingCache` map (an association list,
most recent binding first) together with a log of the provider requests
issued so far (one entry per `fetch`, recording the input text). -/
structure EngineState (K : Type) where
  cache : List (String × List K)
  requests : List String
deriving DecidableEq

/-- The empty initial state: empty cache, no requests issued. -/
def initialState (K : Type) : EngineState K := ⟨[], []⟩

/-- The function `embed(text)` from the source: cache lookup keyed by
`text.slice(0, 200)`; on a miss, one provider request; non-ok status and
missing vector raise; on success the vector is cached, then returned. -/
def embed {K : Type} (provider : Provider K) (st : EngineState K) (text : String) :
    Except EmbedError (List K) × EngineState K :=
  let cacheKey := jsSlice text 200
  match st.cache.lookup cacheKey with
  | some cached => (.ok cached, st)
  | none =>
    let res := provider text
    let st1 : EngineState K := { st with requests := st.requests ++ [text] }
    if !res.ok then
      (.error (.providerError res.status res.body), st1)
    else
      match res.embeddings.bind List.head? with
      | none => (.error .missingEmbedding, st1)
      | some vec => (.ok vec, { st1 with cache := (cacheKey, vec) :: st1.cache })

/-- The `Promise.all(searchPool.map(async v => ...))` fan-out of the source,
sequenced in pool order: embed each verse text and pair it with its verse;
the first failure rejects the whole batch. -/
def embedAll {K : Type} (provider : Provider K) (st : EngineState K) :
    List Verse → Except EmbedError (List (Verse × List K)) × EngineState K
  | [] => (.ok [], st)
  | v :: rest =>
    match embed provider st v.text with
    | (.error e, st1) => (.error e, st1)
    | (.ok vec, st1) =>
      match embedAll provider st1 rest with
      | (.error e, st2) => (.error e, st2)
      | (.ok tail, st2) => (.ok ((v, vec) :: tail), st2)

/-- The function `cosineSimilarity(a, b)` from the source: `0` on dimension mismatch,
otherwise `dot / (sqrt(normA) * sqrt(normB))` with a `0` guard when the
denominator is exactly zero.  `sq` is the model of `Math.sqrt`. -/
def cosineSimilarity {K : Type} [LinearOrderedField K] (sq : K → K) (a b : List K) : K :=
  if a.length ≠ b.length then 0
  else
    let dot := ((a.zip b).map fun p => p.1 * p.2).sum
    let normA := (a.map fun x => x * x).sum
    let normB := (b.map fun x => x * x).sum
    let denom := sq normA * sq normB
    if denom = 0 then 0 else dot / denom

/-- The constant `MAX_VERSES_TO_EMBED` from the source (the pool budget, 80). -/
def MAX_VERSES_TO_EMBED : Nat := 80

/-- The body of the `try` block of `semanticSearch`: embed the trimmed
query, embed every pool verse, score each against the query embedding,
sort by descending score (the comparator `(a, b) => b.score - a.score`;
the source sort makes no stability promise for equal scores, so any
sorted permutation models it) and truncate to `topK`.  Any `embed`
failure aborts the whole path. -/
def semanticPath {K : Type} [LinearOrderedField K] (provider : Provider K) (sq : K → K)
    (verses : List Verse) (st : EngineState K) (q : String) (topK : Nat) :
    Except EmbedError (List (SearchResult K)) × EngineState K :=
  let searchPool := verses.take MAX_VERSES_TO_EMBED
  match embed provider st q with
  | (.error e, st1) => (.error e, st1)
  | (.ok queryEmbedding, st1) =>
    match embedAll provider st1 searchPool with
    | (.error e, st2) => (.error e, st2)
    | (.ok withVecs, st2) =>
      let scored : List (SearchResult K) := withVecs.map fun p =>
        { verse := p.1, score := cosineSimilarity sq queryEmbedding p.2 }
      (.ok ((scored.insertionSort fun x y => y.score ≤ x.score).take topK), st2)

/-- The function `semanticSearch(query, topK = 10)` from the source: trim, early return
on an empty trimmed query, try the semantic path, and on any failure fall
back to the keyword scan of the entire corpus (literal containment of the
trimmed query, or lowercased containment of its lowercased form), truncated
to `topK` and scored `0.9` (idealized as the rational `9 / 10`). -/
def semanticSearch {K : Type} [LinearOrderedField K] (provider : Provider K) (sq : K → K)
    (verses : List Verse) (st : EngineState K) (query : String) (topK : Nat := 10) :
    List (SearchResult K) × EngineState K :=
  let q := jsTrim query
  if q = "" then ([], st)
  else
    match semanticPath provider sq verses st q topK with
    | (.ok results, st1) => (results, st1)
    | (.error _, st1) =>
      let lower := jsToLowerCase q
      let keywordResults : List (SearchResult K) :=
        ((verses.filter fun v =>
            includes v.text q || includes (jsToLowerCase v.text) lower).take topK).map
          fun v => { verse := v, score := 9 / 10 }
      (keywordResults, st1)

/-- The fallback keyword search as the specification describes it: scan the
entire corpus in order, keep the records whose raw text contains the query
or whose lowercased text contains the lowercased query, truncate to `topK`,
score each `0.9`. -/
def keywordSearch {K : Type} [LinearOrderedField K] (verses : List Verse)
    (q : String) (topK : Nat) : List (SearchResult K) :=
  ((verses.filter fun v =>
      includes v.text q || includes (jsToLowerCase v.text) (jsToLowerCase q)).take topK).map
    fun v => { verse := v, score := 9 / 10 }

/-- The function `getContextForQuery(query, maxVerses = 5)` from the source: run
`semanticSearch` and project out the verse of each result. -/
def getContextForQuery {K : Type} [LinearOrderedField K] (provider : Provider K) (sq : K → K)
    (verses : List Verse) (st : EngineState K) (query : String) (maxVerses : Nat := 5) :
    List Verse × EngineState K :=
  let r := semanticSearch provider sq verses st query maxVerses
  (r.1.map fun x => x.verse, r.2)

/-- A provider in outage: every request gets HTTP 500. -/
def failingProvider (K : Type) : Provider K := fun _ => ⟨false, 500, "server error", none⟩

/-- A healthy provider: every request gets HTTP 200 with the single
embedding `[1]`. -/
def constantProvider : Provider ℚ := fun _ => ⟨true, 200, "", some [[1]]⟩

/-- A stand-in for `Math.sqrt` in concrete rational computations. -/
def idSqrt : ℚ → ℚ := fun x => x

/-- Sample verses for the concrete witnesses. -/
def sunVerse : Verse := ⟨"1:1", 1, "A", 1, "the sun rises"⟩

/-- Second sample verse. -/
def moonVerse : Verse := ⟨"1:2", 1, "A", 2, "the moon sets"⟩

/-! ### Helper lemmas -/

/-- On a nonempty trimmed query, `semanticSearch` is exactly the
try-catch over `semanticPath`, with the catch producing the keyword
fallback. -/
theorem semanticSearch_eq_match {K : Type} [LinearOrderedField K] (provider : Provider K)
    (sq : K → K) (verses : List Verse) (st : EngineState K) (query : String) (topK : Nat)
    (h : ¬ jsTrim query = "") :
    semanticSearch provider sq verses st query topK =
      (match semanticPath provider sq verses st (jsTrim query) topK with
        | (.ok results, st1) => (results, st1)
        | (.error _, st1) => (keywordSearch verses (jsTrim query) topK, st1)) := by
  unfold semanticSearch keywordSearch
  rw [if_neg h]

/-- A query that trims blank short-circuits `semanticSearch`. -/
theorem semanticSearch_blank {K : Type} [LinearOrderedField K] (provider : Provider K)
    (sq : K → K) (verses : List Verse) (st : EngineState K) (query : String) (topK : Nat)
    (h : jsTrim query = "") :
    semanticSearch provider sq verses st query topK = ([], st) := by
  unfold semanticSearch
  rw [if_pos h]

/-- C3: a query that trims to the empty string returns the empty result
immediately, with the state (cache and request log) untouched — so no
provider request is issued and the cache is unchanged. -/
theorem semanticSearch_empty_query {K : Type} [LinearOrderedField K] (provider : Provider K)
    (sq : K → K) (verses : List Verse) (st : EngineState K) (query : String) (topK : Nat)
    (h : jsTrim query = "") :
    semanticSearch provider sq verses st query topK = ([], st) :=
  semanticSearch_blank provider sq verses st query topK h

/-- Witness for C3 at the queries from the spec examples: `""` and
`"   "` return no results and leave the state untouched, hence no
provider request and no cache change. -/
theorem semanticSearch_empty_query_witness :
    semanticSearch constantProvider idSqrt [sunVerse] (initialState ℚ) "" 10 =
      ([], initialState ℚ) ∧
    semanticSearch constantProvider idSqrt [sunVerse] (initialState ℚ) "   " 10 =
      ([], initialState ℚ) :=
  ⟨semanticSearch_empty_query constantProvider idSqrt [sunVerse] (initialState ℚ) "" 10
      (by with_unfolding_all rfl),
   semanticSearch_empty_query constantProvider idSqrt [sunVerse] (initialState ℚ) "   " 10
      (by with_unfolding_all rfl)⟩

/-- C9: `getContextForQuery` is exactly `semanticSearch` with the score
projected away: same records, same order, same length, same final state. -/
theorem getContextForQuery_projects {K : Type} [LinearOrderedField K] (provider : Provider K)
    (sq : K → K) (verses : List Verse) (st : EngineState K) (query : String) (maxVerses : Nat) :
    (getContextForQuery provider sq verses st query maxVerses).1 =
      (semanticSearch provider sq verses st query maxVerses).1.map (fun r => r.verse) ∧
    (getContextForQuery provider sq verses st query maxVerses).1.length =
      (semanticSearch provider sq verses st query maxVerses).1.length ∧
    (getContextForQuery provider sq verses st query maxVerses).2 =
      (semanticSearch provider sq verses st query maxVerses).2 :=
  ⟨rfl, List.length_map _ _, rfl⟩

/-- C1: `semanticSearch` never surfaces an error value to its caller: every
call returns a plain (possibly empty) list of scored records — the empty
list on a blank query, the semantic ranking when `semanticPath` succeeds,
and the keyword fallback when any step of the semantic path fails (the
failure is caught internally and converted into the fallback result). -/
theorem semanticSearch_never_errors {K : Type} [LinearOrderedField K] (provider : Provider K)
    (sq : K → K) (verses : List Verse) (st : EngineState K) (query : String) (topK : Nat) :
    (jsTrim query = "" ∧ semanticSearch provider sq verses st query topK = ([], st)) ∨
    (∃ rs st1, semanticPath provider sq verses st (jsTrim query) topK = (.ok rs, st1) ∧
       semanticSearch provider sq verses st query topK = (rs, st1)) ∨
    (∃ e st1, semanticPath provider sq verses st (jsTrim query) topK = (.error e, st1) ∧
       semanticSearch provider sq verses st query topK =
         (keywordSearch verses (jsTrim query) topK, st1)) := by
  by_cases h : jsTrim query = ""
  · exact Or.inl ⟨h, semanticSearch_blank provider sq verses st query topK h⟩
  · rw [semanticSearch_eq_match provider sq verses st query topK h]
    rcases hp : semanticPath provider sq verses st (jsTrim query) topK with ⟨r, st1⟩
    cases r with
    | ok rs => exact Or.inr (Or.inl ⟨rs, st1, rfl, rfl⟩)
    | error e => exact Or.inr (Or.inr ⟨e, st1, rfl, rfl⟩)

/-- C2: whenever any step of the semantic path fails — for example when the
provider answers a request with a non-success HTTP status — the call
returns the keyword search over the entire corpus (not just the pool):
the records whose raw text contains the (trimmed, original-case) query as a
literal substring or whose lowercased text contains the lowercased query,
in corpus order, truncated to `topK`, each scored exactly `0.9`. -/
theorem semanticSearch_fallback_on_failure {K : Type} [LinearOrderedField K]
    (provider : Provider K) (sq : K → K) (verses : List Verse) (st : EngineState K)
    (query : String) (topK : Nat) (e : EmbedError) (st1 : EngineState K)
    (h : ¬ jsTrim query = "")
    (hp : semanticPath provider sq verses st (jsTrim query) topK = (.error e, st1)) :
    semanticSearch provider sq verses st query topK =
      (((verses.filter fun v => includes v.text (jsTrim query) ||
           includes (jsToLowerCase v.text) (jsToLowerCase (jsTrim query))).take topK).map
         (fun v => { verse := v, score := (9 : K) / 10 }), st1) := by
  rw [semanticSearch_eq_match provider sq verses st query topK h, hp]
  rfl

/-- Witness for C2: a full provider outage (HTTP 500 on every request) on a
two-verse corpus; the call returns exactly the keyword matches of the
whole corpus, scored `0.9`, and the state records the one failed request. -/
theorem semanticSearch_fallback_on_failure_witness :
    semanticSearch (failingProvider ℚ) idSqrt [sunVerse, moonVerse] (initialState ℚ) "moon" 5 =
      ((([sunVerse, moonVerse].filter fun v => includes v.text (jsTrim "moon") ||
           includes (jsToLowerCase v.text) (jsToLowerCase (jsTrim "moon"))).take 5).map
         (fun v => { verse := v, score := (9 : ℚ) / 10 }), ⟨[], ["moon"]⟩) :=
  semanticSearch_fallback_on_failure (failingProvider ℚ) idSqrt [sunVerse, moonVerse]
    (initialState ℚ) "moon" 5 (.providerError 500 "server error") ⟨[], ["moon"]⟩
    (by decide) (by with_unfolding_all rfl)

/-- A cache hit: `embed` answers from the cache with no state change
(no provider request is issued, the cache is untouched). -/
theorem embed_cache_hit {K : Type} (provider : Provider K) (st : EngineState K)
    (text : String) (w : List K)
    (h : st.cache.lookup (jsSlice text 200) = some w) :
    embed provider st text = (.ok w, st) := by
  simp only [embed, h]

/-- A successful `embed` leaves the key bound to the returned vector. -/
theorem embed_ok_cached {K : Type} (provider : Provider K) (st : EngineState K)
    (text : String) (vec : List K) (st1 : EngineState K)
    (h : embed provider st text = (.ok vec, st1)) :
    st1.cache.lookup (jsSlice text 200) = some vec := by
  simp only [embed] at h
  cases hl : st.cache.lookup (jsSlice text 200) with
  | some w =>
    rw [hl] at h
    obtain ⟨h1, h2⟩ := Prod.mk.injEq .. ▸ h
    cases h1
    rw [← h2, hl]
  | none =>
    rw [hl] at h
    by_cases hok : (provider text).ok
    · simp only [hok, Bool.not_true, Bool.false_eq_true, if_false, ite_false] at h
      cases hemb : (provider text).embeddings.bind List.head? with
      | none => rw [hemb] at h; exact absurd (congrArg (fun p => p.1) h) (by simp)
      | some v =>
        rw [hemb] at h
        obtain ⟨h1, h2⟩ := Prod.mk.injEq .. ▸ h
        cases Except.ok.inj h1
        rw [← h2]
        exact List.lookup_cons_self
    · simp only [Bool.not_eq_true] at hok
      simp only [hok, Bool.not_false, if_true, ite_true] at h
      exact absurd (congrArg (fun p => p.1) h) (by simp)

/-- C4 (amended): `embed` is memoized by the first 200 characters of the
input, provided the earlier call succeeded: a call whose cache key is
present returns the cached vector with no provider call and no state
change; a successful call stores the (key, vector) pair before returning;
and after a successful call, a second call whose text shares the same
first-200-character key answers from the cache — so the two calls issue at
most one network request in total.  (As stated, the claim fails when the
first call errors: nothing is cached, and the second call issues its own
request — see the counterexample.) -/
theorem embed_memoized {K : Type} (provider : Provider K) (st : EngineState K)
    (t1 t2 : String) (hkey : jsSlice t1 200 = jsSlice t2 200) :
    (∀ w, st.cache.lookup (jsSlice t1 200) = some w →
        embed provider st t1 = (.ok w, st)) ∧
    (∀ vec st1, embed provider st t1 = (.ok vec, st1) →
        st1.cache.lookup (jsSlice t1 200) = some vec) ∧
    (∀ vec st1, embed provider st t1 = (.ok vec, st1) →
        embed provider st1 t2 = (.ok vec, st1)) := by
  refine ⟨fun w h => embed_cache_hit provider st t1 w h,
          fun vec st1 h => embed_ok_cached provider st t1 vec st1 h,
          fun vec st1 h => ?_⟩
  have hc := embed_ok_cached provider st t1 vec st1 h
  rw [hkey] at hc
  exact embed_cache_hit provider st1 t2 vec hc

/-- Counterexample for C4 as frozen: with the provider in outage, two
`embed` calls with the same text (hence the same cache key) issue two
network requests in total, refuting the unconditional at-most-one-request
reading. -/
theorem embed_memoized_counterexample :
    ¬ ((embed (failingProvider ℚ)
          (embed (failingProvider ℚ) (initialState ℚ) "a").2 "a").2.requests.length ≤ 1) := by
  have h : (embed (failingProvider ℚ)
      (embed (failingProvider ℚ) (initialState ℚ) "a").2 "a").2.requests = ["a", "a"] := by
    with_unfolding_all rfl
  rw [h]
  decide

/-- Witness for C4 (amended): a healthy provider on the text `"a"`; the
first call issues the one request and caches the vector, the second call
answers from the cache with the state unchanged. -/
theorem embed_memoized_witness :
    embed constantProvider (initialState ℚ) "a" = (.ok [1], ⟨[("a", [1])], ["a"]⟩) ∧
    embed constantProvider ⟨[("a", [1])], ["a"]⟩ "a" = (.ok [1], ⟨[("a", [1])], ["a"]⟩) := by
  have h1 : embed constantProvider (initialState ℚ) "a" = (.ok [1], ⟨[("a", [1])], ["a"]⟩) := by
    with_unfolding_all rfl
  exact ⟨h1, (embed_memoized constantProvider (initialState ℚ) "a" "a" rfl).2.2
    [1] ⟨[("a", [1])], ["a"]⟩ h1⟩

/-- Every request present after an `embed` call was present before, or is
the text of the call itself. -/
theorem embed_requests {K : Type} (provider : Provider K) (st : EngineState K) (text : String) :
    ∀ t ∈ (embed provider st text).2.requests, t ∈ st.requests ∨ t = text := by
  intro t ht
  simp only [embed] at ht
  cases hl : st.cache.lookup (jsSlice text 200) with
  | some w => rw [hl] at ht; exact Or.inl ht
  | none =>
    rw [hl] at ht
    by_cases hok : (provider text).ok
    · simp only [hok, Bool.not_true, Bool.false_eq_true, if_false, ite_false] at ht
      cases hemb : (provider text).embeddings.bind List.head? with
      | none => rw [hemb] at ht; simpa using List.mem_append.mp ht
      | some v => rw [hemb] at ht; simpa using List.mem_append.mp ht
    · simp only [Bool.not_eq_true] at hok
      simp only [hok, Bool.not_false, if_true, ite_true] at ht
      simpa using List.mem_append.mp ht

/-- Every request present after an `embedAll` batch was present before, or
is the text of one of the verses of the batch. -/
theorem embedAll_requests {K : Type} (provider : Provider K) :
    ∀ (pool : List Verse) (st : EngineState K),
      ∀ t ∈ (embedAll provider st pool).2.requests,
        t ∈ st.requests ∨ ∃ v ∈ pool, t = v.text
  | [], st => by intro t ht; exact Or.inl ht
  | v :: rest, st => by
    intro t ht
    rcases he : embed provider st v.text with ⟨rv, st1⟩
    have hm : ∀ s : String, s ∈ st1.requests → s ∈ st.requests ∨ s = v.text := by
      intro s hs
      exact embed_requests provider st v.text s (by rw [he]; exact hs)
    cases rv with
    | error e =>
      simp only [embedAll, he] at ht
      rcases hm t ht with h | h
      · exact Or.inl h
      · exact Or.inr ⟨v, List.mem_cons_self .., h⟩
    | ok vec =>
      rcases ha : embedAll provider st1 rest with ⟨rr, st2⟩
      have ht2 : t ∈ (embedAll provider st1 rest).2.requests := by
        rw [ha]
        cases rr with
        | error e => simp only [embedAll, he, ha] at ht; exact ht
        | ok tail => simp only [embedAll, he, ha] at ht; exact ht
      rcases embedAll_requests provider rest st1 t ht2 with h | ⟨w, hw, hwt⟩
      · rcases hm t h with h1 | h1
        · exact Or.inl h1
        · exact Or.inr ⟨v, List.mem_cons_self .., h1⟩
      · exact Or.inr ⟨w, List.mem_cons_of_mem v hw, hwt⟩

/-- A successful `embedAll` pairs each pool verse with a vector: every pair
verse comes from the pool. -/
theorem embedAll_ok_verses {K : Type} (provider : Provider K) :
    ∀ (pool : List Verse) (st : EngineState K) (pairs : List (Verse × List K))
      (st1 : EngineState K), embedAll provider st pool = (.ok pairs, st1) →
      ∀ p ∈ pairs, p.1 ∈ pool
  | [], st, pairs, st1 => by
    intro h p hp
    simp only [embedAll] at h
    obtain ⟨h1, h2⟩ := Prod.mk.injEq .. ▸ h
    cases Except.ok.inj h1
    simp at hp
  | v :: rest, st, pairs, st1 => by
    intro h p hp
    rcases he : embed provider st v.text with ⟨rv, stv⟩
    cases rv with
    | error e => simp [embedAll, he] at h
    | ok vec =>
      rcases ha : embedAll provider stv rest with ⟨rr, st2⟩
      cases rr with
      | error e => simp [embedAll, he, ha] at h
      | ok tail =>
        simp only [embedAll, he, ha] at h
        obtain ⟨h1, h2⟩ := Prod.mk.injEq .. ▸ h
        cases Except.ok.inj h1
        rcases List.mem_cons.mp hp with rfl | hmem
        · exact List.mem_cons_self ..
        · exact List.mem_cons_of_mem v
            (embedAll_ok_verses provider rest stv tail st2 ha p hmem)

/-- Inversion of a successful `semanticPath`: the query embedding and the
pool batch both succeeded, and the result is the sorted, truncated scoring
of the pool pairs. -/
theorem semanticPath_ok {K : Type} [LinearOrderedField K] (provider : Provider K) (sq : K → K)
    (verses : List Verse) (st : EngineState K) (q : String) (topK : Nat)
    (rs : List (SearchResult K)) (st1 : EngineState K)
    (h : semanticPath provider sq verses st q topK = (.ok rs, st1)) :
    ∃ qe withVecs st2,
      embed provider st q = (.ok qe, st2) ∧
      embedAll provider st2 (verses.take MAX_VERSES_TO_EMBED) = (.ok withVecs, st1) ∧
      rs = ((withVecs.map fun p =>
          ({ verse := p.1, score := cosineSimilarity sq qe p.2 } : SearchResult K)).insertionSort
            fun x y => y.score ≤ x.score).take topK := by
  rcases hq : embed provider st q with ⟨rq, stq⟩
  cases rq with
  | error e => simp [semanticPath, hq] at h
  | ok qe =>
    rcases ha : embedAll provider stq (verses.take MAX_VERSES_TO_EMBED) with ⟨ra, sta⟩
    cases ra with
    | error e => simp [semanticPath, hq, ha] at h
    | ok pairs =>
      simp only [semanticPath, hq, ha] at h
      obtain ⟨h1, h2⟩ := Prod.mk.injEq .. ▸ h
      cases Except.ok.inj h1
      exact ⟨qe, pairs, stq, rfl, h2 ▸ ha, rfl⟩

/-- Every request present after `semanticPath` was present before, or is
the query itself, or the text of a pool verse. -/
theorem semanticPath_requests {K : Type} [LinearOrderedField K] (provider : Provider K)
    (sq : K → K) (verses : List Verse) (st : EngineState K) (q : String) (topK : Nat) :
    ∀ t ∈ (semanticPath provider sq verses st q topK).2.requests,
      t ∈ st.requests ∨ t = q ∨ ∃ v ∈ verses.take MAX_VERSES_TO_EMBED, t = v.text := by
  intro t ht
  rcases hq : embed provider st q with ⟨rq, stq⟩
  have hm : ∀ s : String, s ∈ stq.requests → s ∈ st.requests ∨ s = q := by
    intro s hs
    exact embed_requests provider st q s (by rw [hq]; exact hs)
  cases rq with
  | error e =>
    simp only [semanticPath, hq] at ht
    rcases hm t ht with h | h
    · exact Or.inl h
    · exact Or.inr (Or.inl h)
  | ok qe =>
    rcases ha : embedAll provider stq (verses.take MAX_VERSES_TO_EMBED) with ⟨ra, sta⟩
    have ht2 : t ∈ (embedAll provider stq (verses.take MAX_VERSES_TO_EMBED)).2.requests := by
      rw [ha]
      cases ra with
      | error e => simp only [semanticPath, hq, ha] at ht; exact ht
      | ok pairs => simp only [semanticPath, hq, ha] at ht; exact ht
    rcases embedAll_requests provider (verses.take MAX_VERSES_TO_EMBED) stq t ht2 with h | h
    · rcases hm t h with h1 | h1
      · exact Or.inl h1
      · exact Or.inr (Or.inl h1)
    · exact Or.inr (Or.inr h)

/-- C7: the semantic path stays inside the deterministic prefix pool of
`MAX_VERSES_TO_EMBED` (80) records: every provider request issued by a
`semanticSearch` call is the trimmed query or the text of a pool-prefix
verse (never a later record), and on semantic-path success every returned
record belongs to the pool prefix. -/
theorem semanticSearch_pool_bounded {K : Type} [LinearOrderedField K] (provider : Provider K)
    (sq : K → K) (verses : List Verse) (st : EngineState K) (query : String) (topK : Nat) :
    (∀ t ∈ (semanticSearch provider sq verses st query topK).2.requests,
       t ∈ st.requests ∨ t = jsTrim query ∨
         ∃ v ∈ verses.take MAX_VERSES_TO_EMBED, t = v.text) ∧
    (∀ rs st1, semanticPath provider sq verses st (jsTrim query) topK = (.ok rs, st1) →
       ∀ r ∈ rs, r.verse ∈ verses.take MAX_VERSES_TO_EMBED) := by
  constructor
  · intro t ht
    by_cases h : jsTrim query = ""
    · rw [semanticSearch_blank provider sq verses st query topK h] at ht
      exact Or.inl ht
    · rw [semanticSearch_eq_match provider sq verses st query topK h] at ht
      rcases hp : semanticPath provider sq verses st (jsTrim query) topK with ⟨res, st1⟩
      rw [hp] at ht
      have ht2 : t ∈ (semanticPath provider sq verses st (jsTrim query) topK).2.requests := by
        rw [hp]
        cases res with
        | ok rs => exact ht
        | error e => exact ht
      exact semanticPath_requests provider sq verses st (jsTrim query) topK t ht2
  · intro rs st1 hp r hr
    obtain ⟨qe, withVecs, st2, hq, ha, hrs⟩ :=
      semanticPath_ok provider sq verses st (jsTrim query) topK rs st1 hp
    subst hrs
    have h1 := List.mem_of_mem_take hr
    rw [List.mem_insertionSort] at h1
    rcases List.mem_map.mp h1 with ⟨p, hpmem, rfl⟩
    exact embedAll_ok_verses provider (verses.take MAX_VERSES_TO_EMBED) st2 withVecs st1 ha
      p hpmem

/-- Witness for C7: a healthy provider on a one-verse corpus; the request
`"sun"` is accounted for as the query, and the returned record is in the
pool prefix. -/
theorem semanticSearch_pool_bounded_witness :
    ("sun" ∈ (initialState ℚ).requests ∨ "sun" = jsTrim "sun" ∨
       ∃ v ∈ [sunVerse].take MAX_VERSES_TO_EMBED, "sun" = v.text) ∧
    sunVerse ∈ [sunVerse].take MAX_VERSES_TO_EMBED := by
  have h := semanticSearch_pool_bounded constantProvider idSqrt [sunVerse] (initialState ℚ)
    "sun" 1
  constructor
  · apply h.1 "sun"
    have hreq : (semanticSearch constantProvider idSqrt [sunVerse] (initialState ℚ)
        "sun" 1).2.requests = ["sun", "the sun rises"] := by
      with_unfolding_all rfl
    rw [hreq]
    exact List.mem_cons_self ..
  · exact h.2 [⟨sunVerse, 1⟩]
      ⟨[("the sun rises", [1]), ("sun", [1])], ["sun", "the sun rises"]⟩
      (by with_unfolding_all rfl) ⟨sunVerse, 1⟩ (List.mem_singleton.mpr rfl)

/-- C8: on semantic-path success, `semanticSearch` returns exactly the
ranking of the path: sorted by non-increasing score and truncated to at most
`topK` elements.  (The embedding sequences the concurrent per-record calls
deterministically in pool order; the output is the sort of the scored pool
by score alone, and no promise is made about the relative order of exactly
equal scores.) -/
theorem semanticSearch_sorted_topK {K : Type} [LinearOrderedField K] (provider : Provider K)
    (sq : K → K) (verses : List Verse) (st : EngineState K) (query : String) (topK : Nat)
    (rs : List (SearchResult K)) (st1 : EngineState K)
    (h : ¬ jsTrim query = "")
    (hp : semanticPath provider sq verses st (jsTrim query) topK = (.ok rs, st1)) :
    semanticSearch provider sq verses st query topK = (rs, st1) ∧
    rs.Pairwise (fun a b => b.score ≤ a.score) ∧
    rs.length ≤ topK := by
  obtain ⟨qe, withVecs, st2, hq, ha, hrs⟩ :=
    semanticPath_ok provider sq verses st (jsTrim query) topK rs st1 hp
  refine ⟨?_, ?_, ?_⟩
  · rw [semanticSearch_eq_match provider sq verses st query topK h, hp]
  · subst hrs
    haveI : IsTotal (SearchResult K) (fun a b => b.score ≤ a.score) :=
      ⟨fun a b => le_total b.score a.score⟩
    haveI : IsTrans (SearchResult K) (fun a b => b.score ≤ a.score) :=
      ⟨fun a b c hab hbc => le_trans hbc hab⟩
    exact List.Pairwise.sublist (List.take_sublist topK _)
      (List.sorted_insertionSort (fun a b : SearchResult K => b.score ≤ a.score) _)
  · subst hrs
    exact List.length_take_le topK _

/-- Witness for C8: a healthy provider on a two-verse corpus with
`topK = 1`; the call returns the single top-scored record, sorted and
within the bound. -/
theorem semanticSearch_sorted_topK_witness :
    semanticSearch constantProvider idSqrt [sunVerse, moonVerse] (initialState ℚ) "sun" 1 =
      ([⟨sunVerse, 1⟩],
        ⟨[("the moon sets", [1]), ("the sun rises", [1]), ("sun", [1])],
          ["sun", "the sun rises", "the moon sets"]⟩) ∧
    ([⟨sunVerse, 1⟩] : List (SearchResult ℚ)).Pairwise (fun a b => b.score ≤ a.score) ∧
    ([⟨sunVerse, 1⟩] : List (SearchResult ℚ)).length ≤ 1 :=
  semanticSearch_sorted_topK constantProvider idSqrt [sunVerse, moonVerse] (initialState ℚ)
    "sun" 1 [⟨sunVerse, 1⟩]
    ⟨[("the moon sets", [1]), ("the sun rises", [1]), ("sun", [1])],
      ["sun", "the sun rises", "the moon sets"]⟩
    (by decide) (by with_unfolding_all rfl)

/-- C10: every record in any `semanticSearch` result — semantic or
fallback path — is an element of the corpus index; the engine never
fabricates records (and, the embedding being purely functional, it never
mutates the corpus). -/
theorem semanticSearch_results_in_corpus {K : Type} [LinearOrderedField K]
    (provider : Provider K) (sq : K → K) (verses : List Verse) (st : EngineState K)
    (query : String) (topK : Nat) :
    ∀ r ∈ (semanticSearch provider sq verses st query topK).1, r.verse ∈ verses := by
  intro r hr
  by_cases h : jsTrim query = ""
  · rw [semanticSearch_blank provider sq verses st query topK h] at hr
    simp at hr
  · rw [semanticSearch_eq_match provider sq verses st query topK h] at hr
    rcases hp : semanticPath provider sq verses st (jsTrim query) topK with ⟨res, st1⟩
    rw [hp] at hr
    cases res with
    | ok rs =>
      have hr2 : r ∈ rs := hr
      obtain ⟨qe, withVecs, st2, hq, ha, hrs⟩ :=
        semanticPath_ok provider sq verses st (jsTrim query) topK rs st1 hp
      subst hrs
      have h1 := List.mem_of_mem_take hr2
      rw [List.mem_insertionSort] at h1
      rcases List.mem_map.mp h1 with ⟨p, hpmem, rfl⟩
      exact List.mem_of_mem_take
        (embedAll_ok_verses provider (verses.take MAX_VERSES_TO_EMBED) st2 withVecs st1 ha
          p hpmem)
    | error e =>
      have hr2 : r ∈ keywordSearch (K := K) verses (jsTrim query) topK := hr
      unfold keywordSearch at hr2
      rcases List.mem_map.mp hr2 with ⟨v, hv, rfl⟩
      exact List.mem_of_mem_filter (List.mem_of_mem_take hv)

/-- Witness for C10: the record returned for the query `"sun"` on the
two-verse corpus is one of the corpus verses. -/
theorem semanticSearch_results_in_corpus_witness : sunVerse ∈ [sunVerse, moonVerse] := by
  have h := semanticSearch_results_in_corpus constantProvider idSqrt [sunVerse, moonVerse]
    (initialState ℚ) "sun" 1 ⟨sunVerse, 1⟩
  apply h
  have hres : (semanticSearch constantProvider idSqrt [sunVerse, moonVerse] (initialState ℚ)
      "sun" 1).1 = [⟨sunVerse, 1⟩] := by
    with_unfolding_all rfl
  rw [hres]
  exact List.mem_singleton.mpr rfl

/-- Pointwise product of a vector with itself is its list of squares. -/
theorem zip_self_mul {α : Type} [Mul α] (v : List α) :
    ((v.zip v).map fun p => p.1 * p.2) = v.map fun x => x * x := by
  induction v with
  | nil => rfl
  | cons x xs ih => simpa using ih

/-- A vector with a nonzero entry has a positive sum of squares. -/
theorem sumsq_pos (v : List ℝ) (x : ℝ) (hx : x ∈ v) (hx0 : x ≠ 0) :
    0 < (v.map fun y => y * y).sum := by
  have h1 : ∀ z ∈ v.map (fun y => y * y), (0 : ℝ) ≤ z := by
    intro z hz
    rcases List.mem_map.mp hz with ⟨y, _, rfl⟩
    exact mul_self_nonneg y
  have h2 : x * x ∈ v.map (fun y => y * y) := List.mem_map.mpr ⟨x, hx, rfl⟩
  exact lt_of_lt_of_le (mul_self_pos.mpr hx0) (List.single_le_sum h1 _ h2)

/-- C6: with real square roots, `cosineSimilarity v v = 1` for every vector
with a nonzero entry, and `cosineSimilarity a b = 0` whenever the lengths
differ or either argument has norm exactly zero — the dimension-mismatch
and division-by-zero guards return `0`, never an error. -/
theorem cosineSimilarity_spec (v a b : List ℝ) :
    ((∃ x ∈ v, x ≠ 0) → cosineSimilarity Real.sqrt v v = 1) ∧
    (a.length ≠ b.length → cosineSimilarity Real.sqrt a b = 0) ∧
    (Real.sqrt ((a.map fun x => x * x).sum) = 0 ∨
       Real.sqrt ((b.map fun x => x * x).sum) = 0 →
     cosineSimilarity Real.sqrt a b = 0) := by
  refine ⟨?_, ?_, ?_⟩
  · rintro ⟨x, hx, hx0⟩
    have hS : 0 < (v.map fun y => y * y).sum := sumsq_pos v x hx hx0
    simp only [cosineSimilarity, zip_self_mul]
    rw [if_neg (fun h => h rfl), Real.mul_self_sqrt hS.le, if_neg hS.ne']
    exact div_self hS.ne'
  · intro hlen
    simp only [cosineSimilarity]
    rw [if_pos hlen]
  · intro hz
    simp only [cosineSimilarity]
    by_cases hlen : a.length ≠ b.length
    · rw [if_pos hlen]
    · rw [if_neg hlen]
      have hd : Real.sqrt ((a.map fun x => x * x).sum) *
          Real.sqrt ((b.map fun x => x * x).sum) = 0 := by
        rcases hz with h | h
        · rw [h, zero_mul]
        · rw [h, mul_zero]
      rw [if_pos hd]

/-- Witness for C6 at concrete vectors: `[1]` against itself scores `1`;
a length mismatch and a zero-norm argument both score `0`. -/
theorem cosineSimilarity_spec_witness :
    cosineSimilarity Real.sqrt [1] [1] = 1 ∧
    cosineSimilarity Real.sqrt [1] [1, 0] = 0 ∧
    cosineSimilarity Real.sqrt [0] [1] = 0 :=
  ⟨(cosineSimilarity_spec [1] [] []).1 ⟨1, List.mem_singleton.mpr rfl, one_ne_zero⟩,
   (cosineSimilarity_spec [] [1] [1, 0]).2.1 (by decide),
   (cosineSimilarity_spec [] [0] [1]).2.2 (Or.inl (by simp))⟩


/-- Any fuel above `n` computes the decimal digits of `n`, appending to the
accumulator. -/
theorem toDigitsCore_append (n : Nat) : ∀ fuel : Nat, n < fuel → ∀ ds : List Char,
    Nat.toDigitsCore 10 fuel n ds = Nat.toDigits 10 n ++ ds := by
  induction n using Nat.strong_induction_on with
  | _ n ih =>
    intro fuel hf ds
    cases fuel with
    | zero => omega
    | succ fuel =>
      by_cases h0 : n / 10 = 0
      · simp [Nat.toDigitsCore, Nat.toDigits, h0]
      · have hn : 0 < n := by omega
        have hlt : n / 10 < n := Nat.div_lt_self hn (by norm_num)
        have step1 : Nat.toDigitsCore 10 (fuel + 1) n ds =
            Nat.toDigitsCore 10 fuel (n / 10) (Nat.digitChar (n % 10) :: ds) := by
          simp [Nat.toDigitsCore, h0]
        have step2 : Nat.toDigits 10 n =
            Nat.toDigitsCore 10 n (n / 10) [Nat.digitChar (n % 10)] := by
          simp [Nat.toDigits, Nat.toDigitsCore, h0]
        have hfuel : n / 10 < fuel := by omega
        rw [step1, ih (n / 10) hlt fuel hfuel, step2, ih (n / 10) hlt n hlt,
          List.append_assoc, List.singleton_append]

/-- One-digit numbers render as their digit character. -/
theorem toDigits_lt_ten (n : Nat) (h : n < 10) :
    Nat.toDigits 10 n = [Nat.digitChar n] := by
  have h0 : n / 10 = 0 := by omega
  have h1 : n % 10 = n := by omega
  simp [Nat.toDigits, Nat.toDigitsCore, h0, h1]

/-- Multi-digit numbers render as the digits of the quotient followed by the
last digit. -/
theorem toDigits_ge_ten (n : Nat) (h : 10 ≤ n) :
    Nat.toDigits 10 n = Nat.toDigits 10 (n / 10) ++ [Nat.digitChar (n % 10)] := by
  have h0 : ¬ n / 10 = 0 := by omega
  have step : Nat.toDigits 10 n =
      Nat.toDigitsCore 10 n (n / 10) [Nat.digitChar (n % 10)] := by
    simp [Nat.toDigits, Nat.toDigitsCore, h0]
  rw [step, toDigitsCore_append (n / 10) n (by omega) [Nat.digitChar (n % 10)]]

/-- A decimal rendering is never empty. -/
theorem toDigits_ne_nil (n : Nat) : Nat.toDigits 10 n ≠ [] := by
  by_cases h : n < 10
  · rw [toDigits_lt_ten n h]
    simp
  · rw [toDigits_ge_ten n (by omega)]
    simp

/-- Decimal digit characters are never the separator `:`. -/
theorem digitChar_ne_colon : ∀ k < 10, Nat.digitChar k ≠ ':' := by decide

/-- Decimal digit characters are distinct below ten. -/
theorem digitChar_inj_lt : ∀ a < 10, ∀ b < 10,
    Nat.digitChar a = Nat.digitChar b → a = b := by decide

/-- The separator `:` never occurs in a decimal rendering. -/
theorem toDigits_no_colon (n : Nat) : ':' ∉ Nat.toDigits 10 n := by
  induction n using Nat.strong_induction_on with
  | _ n ih =>
    by_cases h : n < 10
    · rw [toDigits_lt_ten n h]
      intro hc
      exact digitChar_ne_colon n h (List.mem_singleton.mp hc).symm
    · rw [toDigits_ge_ten n (by omega)]
      intro hc
      rcases List.mem_append.mp hc with h1 | h1
      · exact ih (n / 10) (Nat.div_lt_self (by omega) (by norm_num)) h1
      · exact digitChar_ne_colon (n % 10) (Nat.mod_lt n (by norm_num))
          (List.mem_singleton.mp h1).symm

/-- Decimal renderings are injective. -/
theorem toDigits_inj : ∀ a : Nat, ∀ b : Nat,
    Nat.toDigits 10 a = Nat.toDigits 10 b → a = b := by
  intro a
  induction a using Nat.strong_induction_on with
  | _ a ih =>
    intro b h
    by_cases ha : a < 10 <;> by_cases hb : b < 10
    · rw [toDigits_lt_ten a ha, toDigits_lt_ten b hb] at h
      exact digitChar_inj_lt a ha b hb (List.cons.inj h).1
    · exfalso
      rw [toDigits_lt_ten a ha, toDigits_ge_ten b (by omega)] at h
      have hlen := congrArg List.length h
      simp at hlen
      exact toDigits_ne_nil (b / 10) hlen
    · exfalso
      rw [toDigits_ge_ten a (by omega), toDigits_lt_ten b hb] at h
      have hlen := congrArg List.length h
      simp at hlen
      exact toDigits_ne_nil (a / 10) hlen
    · rw [toDigits_ge_ten a (by omega), toDigits_ge_ten b (by omega)] at h
      have hrev := congrArg List.reverse h
      simp only [List.reverse_append, List.reverse_cons, List.reverse_nil,
        List.nil_append, List.singleton_append] at hrev
      obtain ⟨h1, h2⟩ := List.cons.inj hrev
      have hmod : a % 10 = b % 10 :=
        digitChar_inj_lt (a % 10) (Nat.mod_lt a (by norm_num))
          (b % 10) (Nat.mod_lt b (by norm_num)) h1
      have hdiv : a / 10 = b / 10 :=
        ih (a / 10) (Nat.div_lt_self (by omega) (by norm_num)) (b / 10)
          (List.reverse_inj.mp h2)
      omega

/-- The decimal rendering `Nat.repr` is injective. -/
theorem repr_inj (a b : Nat) (h : Nat.repr a = Nat.repr b) : a = b :=
  toDigits_inj a b (congrArg String.data h)

/-- Splitting at a separator that occurs in neither prefix is unambiguous. -/
theorem append_colon_inj : ∀ (xs ys xs' ys' : List Char),
    ':' ∉ xs → ':' ∉ xs' → xs ++ ':' :: ys = xs' ++ ':' :: ys' → xs = xs' ∧ ys = ys'
  | [], ys, [], ys' => by
    intro _ _ h
    simpa using List.cons.inj h
  | [], ys, c :: cs, ys' => by
    intro _ h2 h
    obtain ⟨h1, _⟩ := List.cons.inj h
    cases h1
    exact absurd (List.mem_cons_self ..) h2
  | c :: cs, ys, [], ys' => by
    intro h1 _ h
    obtain ⟨hc, _⟩ := List.cons.inj h
    cases hc
    exact absurd (List.mem_cons_self ..) h1
  | c :: cs, ys, c' :: cs', ys' => by
    intro h1 h2 h
    obtain ⟨hc, hrest⟩ := List.cons.inj h
    cases hc
    obtain ⟨ha, hb⟩ := append_colon_inj cs ys cs' ys'
      (fun hm => h1 (List.mem_cons_of_mem _ hm))
      (fun hm => h2 (List.mem_cons_of_mem _ hm)) hrest
    exact ⟨by rw [ha], hb⟩

/-- The record id encoding `"<n>:<m>"` is injective in the pair `(n, m)`. -/
theorem encodeId_inj (n m n' m' : Nat)
    (h : Nat.repr n ++ ":" ++ Nat.repr m = Nat.repr n' ++ ":" ++ Nat.repr m') :
    n = n' ∧ m = m' := by
  have hd := congrArg String.data h
  have hr : ∀ k : Nat, (Nat.repr k).data = Nat.toDigits 10 k := fun k => rfl
  have hcolon : (":" : String).data = [':'] := rfl
  simp only [String.data_append, hr, hcolon, List.append_assoc,
    List.singleton_append] at hd
  obtain ⟨h1, h2⟩ := append_colon_inj _ _ _ _ (toDigits_no_colon n) (toDigits_no_colon n') hd
  exact ⟨toDigits_inj n n' h1, toDigits_inj m m' h2⟩

/-- Every verse of a group carries the group number. -/
theorem surahVerses_number (s : Surah) : ∀ v ∈ surahVerses s, v.surahNumber = s.number := by
  intro v hv
  rcases List.mem_map.mp hv with ⟨p, _, rfl⟩
  rfl

/-- The 1-based positions within one group are distinct. -/
theorem surahVerses_ayahNumbers_nodup (s : Surah) :
    ((surahVerses s).map fun v => v.ayahNumber).Nodup := by
  unfold surahVerses
  rw [List.map_map]
  have he : ((fun v : Verse => v.ayahNumber) ∘ fun p : Nat × String =>
      ({ ayahId := Nat.repr s.number ++ ":" ++ Nat.repr (p.1 + 1),
         surahNumber := s.number,
         surahName := s.name,
         ayahNumber := p.1 + 1,
         text := p.2 } : Verse)) = (fun i : Nat => i + 1) ∘ Prod.fst := rfl
  rw [he, ← List.map_map, List.enum_map_fst]
  exact List.Nodup.map (fun i j hij => by omega) (List.nodup_range _)

/-- With pairwise-distinct group numbers, the record ids of the built
corpus are pairwise distinct. -/
theorem buildVerses_ids_nodup (surahs : List Surah)
    (h : (surahs.map fun s => s.number).Nodup) :
    ((buildVerses surahs).map fun v => v.ayahId).Nodup := by
  have hid : ((buildVerses surahs).map fun v => v.ayahId) =
      (buildVerses surahs).map ((fun p : Nat × Nat => Nat.repr p.1 ++ ":" ++ Nat.repr p.2) ∘
        fun v : Verse => (v.surahNumber, v.ayahNumber)) := by
    apply List.map_congr_left
    intro v hv
    rcases List.mem_flatMap.mp hv with ⟨s, hs, hvs⟩
    rcases List.mem_map.mp hvs with ⟨p, hp, rfl⟩
    rfl
  rw [hid, ← List.map_map]
  refine List.Nodup.map ?_ ?_
  · intro p q hpq
    obtain ⟨h1, h2⟩ := encodeId_inj p.1 p.2 q.1 q.2 hpq
    exact Prod.ext h1 h2
  · rw [show buildVerses surahs = surahs.flatMap surahVerses from rfl, List.map_flatMap]
    rw [List.nodup_flatMap]
    constructor
    · intro s hs
      exact List.Nodup.of_map Prod.snd (by
        rw [List.map_map]
        exact surahVerses_ayahNumbers_nodup s)
    · have hpw : surahs.Pairwise fun s t => s.number ≠ t.number := List.pairwise_map.mp h
      refine hpw.imp fun {s t} hst => ?_
      intro x hx1 hx2
      rcases List.mem_map.mp hx1 with ⟨v, hv, rfl⟩
      rcases List.mem_map.mp hx2 with ⟨w, hw, hvw⟩
      apply hst
      rw [← surahVerses_number s v hv, ← surahVerses_number t w hw]
      exact (congrArg Prod.fst hvw).symm

/-- C5 (amended): the built corpus has exactly one record per content line,
in group order then line order; a group with absent content contributes no
records; the record at 0-based position `i` of its group carries the 1-based
position `i + 1` and the id `"<groupNumber>:<i+1>"`; and — provided the
group numbers are pairwise distinct, as the refuted unconditional reading
requires — all record ids are distinct.  Construction is total and never
fails. -/
theorem buildVerses_spec (surahs : List Surah)
    (hnodup : (surahs.map fun s => s.number).Nodup) :
    (buildVerses surahs).length = (surahs.map fun s => (s.content.getD []).length).sum ∧
    buildVerses surahs = (surahs.map surahVerses).flatten ∧
    (∀ s : Surah, s.content = none → surahVerses s = []) ∧
    (∀ s ∈ surahs, ∀ i : Nat, ∀ t : String, (s.content.getD [])[i]? = some t →
       (surahVerses s)[i]? = some
         { ayahId := Nat.repr s.number ++ ":" ++ Nat.repr (i + 1),
           surahNumber := s.number,
           surahName := s.name,
           ayahNumber := i + 1,
           text := t }) ∧
    ((buildVerses surahs).map fun v => v.ayahId).Nodup := by
  refine ⟨?_, rfl, ?_, ?_, buildVerses_ids_nodup surahs hnodup⟩
  · rw [show buildVerses surahs = (surahs.map surahVerses).flatten from rfl,
      List.length_flatten, List.map_map]
    congr 1
    apply List.map_congr_left
    intro s _
    show (surahVerses s).length = _
    unfold surahVerses
    rw [List.length_map, List.enum_length]
  · intro s hnone
    unfold surahVerses
    rw [hnone]
    rfl
  · intro s _ i t ht
    unfold surahVerses
    rw [List.getElem?_map, List.getElem?_enum, ht]
    rfl

/-- Counterexample for C5 as frozen: two groups may share a number, and
then two records get the same id `"1:1"` — ids are not distinct for every
input sequence of groups. -/
theorem buildVerses_spec_counterexample :
    ¬ (((buildVerses [⟨1, "A", some ["a"]⟩, ⟨1, "B", some ["b"]⟩]).map
         fun v => v.ayahId).Nodup) := by
  decide

/-- Witness for C5 (amended) on a two-group corpus with distinct numbers,
one group with two lines and one with absent content. -/
theorem buildVerses_spec_witness :
    (buildVerses [⟨1, "A", some ["x", "y"]⟩, ⟨2, "B", none⟩]).length =
      ([⟨1, "A", some ["x", "y"]⟩, ⟨2, "B", none⟩].map
        fun s : Surah => (s.content.getD []).length).sum ∧
    surahVerses ⟨2, "B", none⟩ = [] ∧
    (surahVerses ⟨1, "A", some ["x", "y"]⟩)[1]? = some
      { ayahId := Nat.repr 1 ++ ":" ++ Nat.repr 2, surahNumber := 1, surahName := "A",
        ayahNumber := 2, text := "y" } ∧
    ((buildVerses [⟨1, "A", some ["x", "y"]⟩, ⟨2, "B", none⟩]).map fun v => v.ayahId).Nodup := by
  have h := buildVerses_spec [⟨1, "A", some ["x", "y"]⟩, ⟨2, "B", none⟩] (by decide)
  exact ⟨h.1, h.2.2.1 ⟨2, "B", none⟩ rfl,
    h.2.2.2.1 ⟨1, "A", some ["x", "y"]⟩ (by decide) 1 "y" rfl, h.2.2.2.2⟩

end Sultan
